import Mathlib

/-
Verification development for the Kanban Status Updater plugin
(src/main.ts, first class definition, together with the observer logic of
the second class definition and the older variant in src/unnamed/part_000).

Text is modelled as List Char.  The plugin's updateNoteStatus reads a
note, locates a YAML frontmatter block with the anchored lazy regex
whose pattern text is caret, three dashes, newline, a lazy any-character
group, newline, three dashes (src/main.ts line 412), then
parses it, sets the configured status property, re-serializes and splices
the block back (String.replace of the unique anchored match), or prepends
a fresh block when no match exists.

The host application's parseYaml / stringifyYaml helpers are not part of
this repository; they are modelled from the spec (section 3: a YAML
mapping, string key to string value, one "key: value" line per entry).
-/

abbrev Chars := List Char

/-- Frontmatter mapping: association list of key/value pairs, in file order
(a JS object preserves insertion order; updating an existing key keeps its
position, a new key is appended at the end). -/
abbrev Fm := List (Chars × Chars)

/-- The four characters consumed by the regex head, the literal dash-dash-dash-newline. -/
def fmOpen : Chars := '-' :: '-' :: '-' :: '\n' :: []

/-- Three dashes, as written by the splice and by the created block. -/
def dashes3 : Chars := '-' :: '-' :: '-' :: []

/-- The closing delimiter pattern searched for by the lazy group: a newline
followed by three dashes. -/
def nlDashes : Chars := '\n' :: dashes3

/-- Separator of a model YAML line, colon-space. -/
def colonSp : Chars := ':' :: ' ' :: []

/-- Index of the first occurrence of pat in a string, none when absent.
Used to model the lazy (shortest-match) group of the frontmatter regex and
the key/value split of a model YAML line. -/
def firstOcc (pat : Chars) : Chars → Option Nat
  | [] => if pat.isPrefixOf ([] : Chars) then some 0 else none
  | c :: rest =>
    if pat.isPrefixOf (c :: rest) then some 0
    else (firstOcc pat rest).map (· + 1)

/-- Whether pat occurs anywhere in the string. -/
def containsSub (pat : Chars) : Chars → Bool
  | [] => pat.isPrefixOf ([] : Chars)
  | c :: rest => pat.isPrefixOf (c :: rest) || containsSub pat rest

/-- Embedding of content.match of the regex ^---\n([\s\S]*?)\n--- used in
updateNoteStatus (src/main.ts line 412): anchored at the start of the
content, lazy group, so the group is everything between the opening
dash-dash-dash-newline and the FIRST later newline-dash-dash-dash.
Returns (group, text after the whole match), none when there is no match. -/
def matchFm (content : Chars) : Option (Chars × Chars) :=
  if fmOpen.isPrefixOf content then
    match firstOcc nlDashes (content.drop 4) with
    | none => none
    | some i => some ((content.drop 4).take i, (content.drop 4).drop (i + 4))
  else none

/-- Split a string at every newline (the pieces carry no newline). -/
def splitLines : Chars → List Chars
  | [] => [[]]
  | c :: rest =>
    if c = '\n' then [] :: splitLines rest
    else
      match splitLines rest with
      | [] => [[c]]
      | l :: ls => (c :: l) :: ls

/-- Join lines with single newlines between them (no trailing newline). -/
def joinLines : List Chars → Chars
  | [] => []
  | [l] => l
  | l :: l2 :: ls => l ++ '\n' :: joinLines (l2 :: ls)

/-- Modelled from the spec: one line of the host's YAML serializer output,
"key: value" (spec section 3: string key to string scalar mapping). -/
def lineOf (kv : Chars × Chars) : Chars := kv.1 ++ ':' :: ' ' :: kv.2

/-- Modelled from the spec: the host's parseYaml on one line of a mapping
block.  The line must contain a colon-space separator; the key is the text
before its first occurrence, the value the text after it. -/
def parseLine (l : Chars) : Option (Chars × Chars) :=
  match firstOcc colonSp l with
  | none => none
  | some i => some (l.take i, l.drop (i + 2))

/-- Modelled from the spec: parseYaml over the lines of the block.  Blank
lines are skipped; any other line that is not "key: value" makes the whole
parse fail (the code catches the failure and substitutes an empty object). -/
def parseLines : List Chars → Option Fm
  | [] => some []
  | l :: ls =>
    if l = [] then parseLines ls
    else
      match parseLine l, parseLines ls with
      | some kv, some rest => some (kv :: rest)
      | _, _ => none

/-- Modelled from the spec: the host's parseYaml restricted to simple
flat string mappings. -/
def parseFm (body : Chars) : Option Fm := parseLines (splitLines body)

/-- Modelled from the spec: the host's stringifyYaml on a flat mapping,
one "key: value" line per entry, each line terminated by a newline (so the
output of a nonempty mapping ends with a newline, which the code relies on
when writing dash-dash-dash directly after it). -/
def stringifyFm : Fm → Chars
  | [] => []
  | kv :: rest => lineOf kv ++ '\n' :: stringifyFm rest

/-- JS object read obj[key] (first binding wins; a parsed object has at
most one binding per key). -/
def lookupFm : Fm → Chars → Option Chars
  | [], _ => none
  | (k, v) :: rest, key => if k = key then some v else lookupFm rest key

/-- JS object write obj[key] = val: replace in place when the key exists,
append at the end otherwise. -/
def setKey : Fm → Chars → Chars → Fm
  | [], key, val => [(key, val)]
  | (k, v) :: rest, key, val =>
    if k = key then (key, val) :: rest else (k, v) :: setKey rest key val

/-- True when the string has no newline. -/
def noNL (l : Chars) : Bool := l.all (· != '\n')

/-- Well-formed property key for the model YAML layer: no newline, no
colon-space inside it, and it does not begin with three dashes (the real
serializer would quote or escape such keys; the model excludes them). -/
def okKey (k : Chars) : Bool :=
  noNL k && !containsSub colonSp k && !dashes3.isPrefixOf k

/-- Well-formed property value for the model YAML layer: no newline. -/
def okVal (v : Chars) : Bool := noNL v

/-- Every key and value of the mapping is well formed. -/
def okFm : Fm → Bool
  | [] => true
  | (k, v) :: rest => okKey k && okVal v && okFm rest

/-- Settings record of the plugin (src/main.ts interface
KanbanStatusUpdaterSettings). -/
structure KanbanStatusUpdaterSettings where
  statusPropertyName : Chars
  showNotifications : Bool
  debugMode : Bool
  deriving DecidableEq

/-- DEFAULT_SETTINGS of src/main.ts (first class definition). -/
def DEFAULT_SETTINGS : KanbanStatusUpdaterSettings :=
  { statusPropertyName := 's' :: 't' :: 'a' :: 't' :: 'u' :: 's' :: []
    showNotifications := false
    debugMode := false }

/-- The user-visible notices updateNoteStatus can emit. -/
inductive KNotice where
  | warnNotFound (path : Chars)
  | updatedStatus (oldStatus newStatus : Chars)
  | setStatus (newStatus : Chars)
  | addedStatus (newStatus : Chars)
  deriving DecidableEq

/-- Observable outcome of one updateNoteStatus call: the content passed to
vault.modify (none when no write happens) and the notices shown. -/
structure UpdateResult where
  write : Option Chars
  notices : List KNotice
  deriving DecidableEq

/-- Embedding of the body of updateNoteStatus (src/main.ts lines 408-482)
after the file content has been read.  Frontmatter found: parse it (parse
failure yields the empty object, the catch at line 432), write back only
when the stored value differs from the new status, splicing the
re-serialized block over the regex match.  No frontmatter: prepend a fresh
block, then a blank line, then the original content.  oldStatus follows
the truthiness test at line 428 (an empty-string value counts as absent). -/
def updateContent (s : KanbanStatusUpdaterSettings) (status content : Chars) : UpdateResult :=
  match matchFm content with
  | some (body, rest) =>
    let frontmatterObj := (parseFm body).getD []
    let oldStatus : Option Chars :=
      match lookupFm frontmatterObj s.statusPropertyName with
      | some v => if v = [] then none else some v
      | none => none
    if lookupFm frontmatterObj s.statusPropertyName = some status then
      { write := none, notices := [] }
    else
      let obj2 := setKey frontmatterObj s.statusPropertyName status
      { write := some (fmOpen ++ (stringifyFm obj2 ++ (dashes3 ++ rest)))
        notices :=
          if s.showNotifications then
            [(match oldStatus with
              | some o => KNotice.updatedStatus o status
              | none => KNotice.setStatus status)]
          else [] }
  | none =>
    { write := some (fmOpen ++ (stringifyFm [(s.statusPropertyName, status)] ++
        (dashes3 ++ ('\n' :: '\n' :: content))))
      notices := if s.showNotifications then [KNotice.addedStatus status] else [] }

/-- Embedding of updateNoteStatus (src/main.ts lines 396-489).  vault
models metadataCache.getFirstLinkpathDest followed by vault.read: it maps
a link path to the content of the resolved file, none when the link does
not resolve.  An unresolved link shows the warning notice only when
showNotifications is on (line 402) and aborts. -/
def updateNoteStatus (s : KanbanStatusUpdaterSettings) (vault : Chars → Option Chars)
    (notePath status : Chars) : UpdateResult :=
  match vault notePath with
  | none =>
    { write := none
      notices := if s.showNotifications then [KNotice.warnNotFound notePath] else [] }
  | some content => updateContent s status content

/-- Embedding of updateNoteStatus of the older variant
(src/unnamed/part_000 lines 300-379): the not-found warning is shown
unconditionally (line 307), and the file is written unconditionally once
it resolves (no value-unchanged check, line 362). -/
def updateNoteStatusOld (s : KanbanStatusUpdaterSettings) (vault : Chars → Option Chars)
    (notePath status : Chars) : UpdateResult :=
  match vault notePath with
  | none => { write := none, notices := [KNotice.warnNotFound notePath] }
  | some content =>
    match matchFm content with
    | some (body, rest) =>
      let obj := (parseFm body).getD []
      let oldStatus : Option Chars :=
        match lookupFm obj s.statusPropertyName with
        | some v => if v = [] then none else some v
        | none => none
      { write := some (fmOpen ++ (stringifyFm (setKey obj s.statusPropertyName status) ++
          (dashes3 ++ rest)))
        notices :=
          if s.showNotifications then
            [(match oldStatus with
              | some o => KNotice.updatedStatus o status
              | none => KNotice.setStatus status)]
          else [] }
    | none =>
      { write := some (fmOpen ++ (stringifyFm [(s.statusPropertyName, status)] ++
          (dashes3 ++ ('\n' :: '\n' :: content))))
        notices := if s.showNotifications then [KNotice.setStatus status] else [] }

/-- Result of the anchor query inside a card
(itemElement.querySelector of the title-markdown internal link):
getAttribute results for data-href and href (none models a missing
attribute, some [] an attribute present with empty value) and the
anchor's text. -/
structure LinkEl where
  dataHref : Option Chars
  href : Option Chars
  textContent : Chars
  deriving DecidableEq

/-- Result of the lane queries: the lane-title text when the
lane-header-wrapper lane-title selector matches. -/
structure LaneEl where
  laneTitle : Option Chars
  deriving DecidableEq

/-- A Kanban card element, by the results of the DOM queries
processKanbanItem performs on it: its internal-link anchor (none when the
querySelector finds none) and its closest enclosing lane. -/
structure CardItem where
  internalLink : Option LinkEl
  lane : Option LaneEl
  deriving DecidableEq

/-- What processKanbanItem decides to do with a card. -/
inductive ItemAction where
  | noAction
  | update (notePath status : Chars)
  deriving DecidableEq

/-- ASCII whitespace test used to model String.prototype.trim (the model
covers space, tab, newline, carriage return). -/
def isWS (c : Char) : Bool := c == ' ' || c == '\n' || c == '\t' || c == '\r'

/-- Model of textContent.trim(): strip whitespace from both ends. -/
def trimChars (cs : Chars) : Chars :=
  ((cs.dropWhile isWS).reverse.dropWhile isWS).reverse

/-- JS a || b over getAttribute results: null and the empty string are
falsy, so an empty attribute value falls through to the second operand. -/
def attrOr (a b : Option Chars) : Option Chars :=
  match a with
  | some v => if v = [] then b else some v
  | none => b

/-- Embedding of processKanbanItem (src/main.ts lines 350-394): find the
internal link, take data-href falling back to href (JS falsiness), abort
on a missing or empty result (the !linkPath test at line 366), find the
lane and its header, and request the update with the trimmed header text. -/
def processKanbanItem (item : CardItem) : ItemAction :=
  match item.internalLink with
  | none => ItemAction.noAction
  | some link =>
    match attrOr link.dataHref link.href with
    | none => ItemAction.noAction
    | some linkPath =>
      if linkPath = [] then ItemAction.noAction
      else
        match item.lane with
        | none => ItemAction.noAction
        | some lane =>
          match lane.laneTitle with
          | none => ItemAction.noAction
          | some t => ItemAction.update linkPath (trimChars t)

/-- processKanbanItem composed with updateNoteStatus: the observable
outcome of processing one card. -/
def runKanbanItem (s : KanbanStatusUpdaterSettings) (vault : Chars → Option Chars)
    (item : CardItem) : UpdateResult :=
  match processKanbanItem item with
  | ItemAction.noAction => { write := none, notices := [] }
  | ItemAction.update notePath status => updateNoteStatus s vault notePath status

/-- Claim C7's own description of the chosen note path, written from the
spec's words: the data-href attribute when that attribute is present,
otherwise the href attribute.  Kept separate from the code model attrOr
so the two can be compared. -/
def specLinkPath (item : CardItem) : Option Chars :=
  match item.internalLink with
  | none => none
  | some link =>
    match link.dataHref with
    | some v => some v
    | none => link.href

/-- State of the first class definition's event plumbing: the isProcessing
flag, whether an active Kanban board is tracked, the queue of pending
setTimeout callbacks in creation order (some b is the observer callback
that will run handleMutations on batch b then clear the flag, none is the
flag-reset scheduled by onDragEnd's finally), and logs of what has been
handled. -/
structure DragObsState where
  isProcessing : Bool
  activeKanbanBoard : Bool
  timers : List (Option Nat)
  processedBatches : List Nat
  processedDrags : List Nat
  deriving DecidableEq

/-- Events delivered to that plumbing: a MutationObserver callback with a
batch, a dragend event on a target element, or the firing of the oldest
pending setTimeout (all delays are equal, so timers fire in creation
order). -/
inductive DragObsEv where
  | mutationBatch (b : Nat)
  | dragEnd (e : Nat)
  | fireTimer
  deriving DecidableEq

/-- Embedding of the observer callback of setupObserverForBoard
(src/main.ts lines 186-195) and of onDragEnd (lines 285-312).  A busy
flag makes either handler return at once, storing nothing.  Otherwise the
observer callback sets the flag and schedules the batch; onDragEnd sets
the flag, processes its target synchronously and schedules only the flag
reset. -/
def dragObsStep (st : DragObsState) : DragObsEv → DragObsState
  | DragObsEv.mutationBatch b =>
    if st.isProcessing then st
    else { st with isProcessing := true, timers := st.timers ++ [some b] }
  | DragObsEv.dragEnd e =>
    if !st.activeKanbanBoard || st.isProcessing then st
    else { st with isProcessing := true
                   processedDrags := st.processedDrags ++ [e]
                   timers := st.timers ++ [none] }
  | DragObsEv.fireTimer =>
    match st.timers with
    | [] => st
    | some b :: ts =>
      { st with isProcessing := false, timers := ts
                processedBatches := st.processedBatches ++ [b] }
    | none :: ts => { st with isProcessing := false, timers := ts }

/-- Run a list of events from a state. -/
def runEvents (st : DragObsState) (evs : List DragObsEv) : DragObsState :=
  evs.foldl dragObsStep st

/-- State of the second class definition's observer: its two busy flags,
pending scheduled handleMutations callbacks and the processed log. -/
structure MutObsStateB where
  isProcessingMutation : Bool
  isManuallyProcessing : Bool
  timers : List Nat
  processedBatches : List Nat
  deriving DecidableEq

/-- Events for the second variant: a mutation batch (with the outcome of
the relevant-mutations filter), a timer firing, and the manual-processing
window opening or closing (runTest / autoProcessAllCards / syncAllCards). -/
inductive MutObsEvB where
  | mutationBatch (b : Nat) (relevant : Bool)
  | fireTimer
  | manualStart
  | manualEnd
  deriving DecidableEq

/-- Embedding of the observer callback of the second setupObserverForBoard
(src/main.ts lines 832-895): if either busy flag is set the callback
returns at once; otherwise an irrelevant batch is ignored and a relevant
one sets isProcessingMutation and schedules handleMutations on it. -/
def mutObsStepB (st : MutObsStateB) : MutObsEvB → MutObsStateB
  | MutObsEvB.mutationBatch b relevant =>
    if st.isProcessingMutation || st.isManuallyProcessing then st
    else if !relevant then st
    else { st with isProcessingMutation := true, timers := st.timers ++ [b] }
  | MutObsEvB.fireTimer =>
    match st.timers with
    | [] => st
    | b :: ts =>
      { st with isProcessingMutation := false, timers := ts
                processedBatches := st.processedBatches ++ [b] }
  | MutObsEvB.manualStart => { st with isManuallyProcessing := true }
  | MutObsEvB.manualEnd => { st with isManuallyProcessing := false }

/-- Run a list of events of the second variant from a state. -/
def runEventsB (st : MutObsStateB) (evs : List MutObsEvB) : MutObsStateB :=
  evs.foldl mutObsStepB st

/-- Kind of a MutationRecord. -/
inductive MutType where
  | childList
  | attributes
  | characterData
  deriving DecidableEq

/-- An added node of a childList record, by what the dispatch of
handleMutations (src/main.ts lines 224-270) extracts from it: an HTML
element is processed directly; an SVG element is replaced by its closest
enclosing Kanban item, falling back to the board's most recent item; a
text node is replaced by its parent's closest enclosing item; everything
else is skipped.  Nat values stand for the distinct elements handed to
processElement. -/
inductive DomNode where
  | htmlElem (e : Nat)
  | svgElem (closestItem : Option Nat) (recentItem : Option Nat)
  | otherElem
  | textNode (parentClosestItem : Option Nat)
  | otherNode
  deriving DecidableEq

/-- A MutationRecord, by its type and added nodes. -/
structure MRecord where
  mutType : MutType
  addedNodes : List DomNode
  deriving DecidableEq

/-- Elements handed to processElement for one added node. -/
def nodeTargets : DomNode → List Nat
  | DomNode.htmlElem e => [e]
  | DomNode.svgElem (some p) _ => [p]
  | DomNode.svgElem none (some r) => [r]
  | DomNode.svgElem none none => []
  | DomNode.otherElem => []
  | DomNode.textNode (some i) => [i]
  | DomNode.textNode none => []
  | DomNode.otherNode => []

/-- One added-nodes loop of handleMutations. -/
def collectNodes : List DomNode → List Nat
  | [] => []
  | n :: ns => nodeTargets n ++ collectNodes ns

/-- Elements handed to processElement for one record: only childList
records are examined (line 222), every other type is logged and skipped. -/
def recordTargets (m : MRecord) : List Nat :=
  match m.mutType with
  | MutType.childList => collectNodes m.addedNodes
  | _ => []

/-- The sampling step of handleMutations (src/main.ts lines 211-214):
when more than max_mutations = 10 records arrive, only the first 10 are
kept. -/
def mutationsToProcess (muts : List MRecord) : List MRecord :=
  if muts.length > 10 then muts.take 10 else muts

/-- The record loop. -/
def collectRecords : List MRecord → List Nat
  | [] => []
  | m :: ms => recordTargets m ++ collectRecords ms

/-- Embedding of handleMutations (src/main.ts lines 207-283), returning
the elements handed to processElement in order.  Nothing happens without
an active board (line 208). -/
def handleMutations (boardActive : Bool) (muts : List MRecord) : List Nat :=
  if boardActive then collectRecords (mutationsToProcess muts) else []

/-- Whether the content can appear in the well-formed domain of the model
YAML layer: whenever its frontmatter block parses, every parsed key and
value is well formed (okFm).  Trivially true for files without a parseable
block. -/
def okContent (content : Chars) : Bool :=
  match matchFm content with
  | some (body, _) => okFm ((parseFm body).getD [])
  | none => true

/-- A concrete sample card: data-href present and nonempty, inside a lane
whose header text carries surrounding whitespace. -/
def c7Item : CardItem :=
  { internalLink := some
      { dataHref := some ('n' :: 'o' :: 't' :: 'e' :: [])
        href := none
        textContent := [] }
    lane := some { laneTitle := some (' ' :: 'D' :: 'o' :: 'i' :: 'n' :: 'g' :: ' ' :: []) } }


theorem take_len_app (a b : Chars) : (a ++ b).take a.length = a := by
  induction a with
  | nil => rfl
  | cons c t ih => simp [List.take_succ_cons, ih]

theorem drop_app_plus (a b : Chars) (n : Nat) : (a ++ b).drop (a.length + n) = b.drop n := by
  induction a with
  | nil => simp
  | cons c t ih =>
    have h : (c :: t).length + n = (t.length + n) + 1 := by
      simp [List.length_cons]; omega
    rw [List.cons_append, h, List.drop_succ_cons, ih]

theorem drop_len_app (a b : Chars) : (a ++ b).drop a.length = b := by
  simpa using drop_app_plus a b 0

theorem isPrefixOf_app_self (a b : Chars) : a.isPrefixOf (a ++ b) = true := by
  induction a with
  | nil => simp [List.isPrefixOf]
  | cons c t ih => simp [List.isPrefixOf, ih]

theorem take_all_of_le {α : Type} (l : List α) (n : Nat) (h : l.length ≤ n) :
    l.take n = l := by
  induction l generalizing n with
  | nil => simp
  | cons a t ih =>
    cases n with
    | zero => simp at h
    | succ m =>
      have : t.length ≤ m := by simp at h; omega
      simp [List.take_succ_cons, ih m this]

theorem take_app_of_le {α : Type} (a b : List α) (n : Nat) (h : n ≤ a.length) :
    (a ++ b).take n = a.take n := by
  induction a generalizing n with
  | nil =>
    have : n = 0 := by simpa using h
    simp [this]
  | cons x t ih =>
    cases n with
    | zero => simp
    | succ m =>
      have : m ≤ t.length := by simp at h; omega
      simp [List.take_succ_cons, ih m this]

theorem firstOcc_nl_skip (l s : Chars) (hl : noNL l = true) :
    firstOcc nlDashes (l ++ s) = (firstOcc nlDashes s).map (· + l.length) := by
  induction l with
  | nil =>
    simp only [List.nil_append, List.length_nil]
    cases h : firstOcc nlDashes s <;> simp [h]
  | cons c t ih =>
    simp only [noNL, List.all_cons, Bool.and_eq_true] at hl
    have hc : c ≠ '\n' := by simpa [bne_iff_ne] using hl.1
    have hcond : nlDashes.isPrefixOf (c :: (t ++ s)) = false := by
      simp [nlDashes, List.isPrefixOf, beq_eq_false_iff_ne, Ne.symm hc]
    have ht : noNL t = true := by simp [noNL, hl.2]
    rw [List.cons_append]
    rw [show firstOcc nlDashes (c :: (t ++ s)) =
        (firstOcc nlDashes (t ++ s)).map (· + 1) by simp [firstOcc, hcond]]
    rw [ih ht]
    cases firstOcc nlDashes s <;> simp [List.length_cons] <;> omega

theorem dashes_not_pref_line (l z : Chars) (h : dashes3.isPrefixOf l = false) :
    dashes3.isPrefixOf (l ++ '\n' :: z) = false := by
  match l with
  | [] => rfl
  | [a] =>
    simp [dashes3, List.isPrefixOf]
  | [a, b] =>
    simp [dashes3, List.isPrefixOf]
  | a :: b :: c :: t =>
    simp only [dashes3, List.isPrefixOf, List.cons_append, Bool.and_eq_true,
      List.isPrefixOf] at h ⊢
    simpa using h

theorem firstOcc_join (L : List Chars) (z : Chars) (hne : L ≠ [])
    (h1 : ∀ l ∈ L, noNL l = true)
    (h2 : ∀ l ∈ L, dashes3.isPrefixOf l = false) :
    firstOcc nlDashes (joinLines L ++ '\n' :: (dashes3 ++ z))
      = some (joinLines L).length := by
  induction L with
  | nil => exact absurd rfl hne
  | cons l L' ih =>
    cases L' with
    | nil =>
      rw [show joinLines [l] = l from rfl]
      rw [firstOcc_nl_skip l _ (h1 l (by simp))]
      rw [show firstOcc nlDashes ('\n' :: (dashes3 ++ z)) = some 0 by
        simp [firstOcc, nlDashes, isPrefixOf_app_self]]
      simp
    | cons l2 L'' =>
      rw [show joinLines (l :: l2 :: L'') = l ++ '\n' :: joinLines (l2 :: L'') from rfl]
      have hrearr : (l ++ '\n' :: joinLines (l2 :: L'')) ++ '\n' :: (dashes3 ++ z)
          = l ++ '\n' :: (joinLines (l2 :: L'') ++ '\n' :: (dashes3 ++ z)) := by
        simp
      rw [hrearr, firstOcc_nl_skip l _ (h1 l (by simp))]
      have hW : dashes3.isPrefixOf (joinLines (l2 :: L'') ++ '\n' :: (dashes3 ++ z)) = false := by
        cases L'' with
        | nil => exact dashes_not_pref_line l2 _ (h2 l2 (by simp))
        | cons l3 L3 =>
          rw [show joinLines (l2 :: l3 :: L3) = l2 ++ '\n' :: joinLines (l3 :: L3) from rfl]
          have : (l2 ++ '\n' :: joinLines (l3 :: L3)) ++ '\n' :: (dashes3 ++ z)
              = l2 ++ '\n' :: (joinLines (l3 :: L3) ++ '\n' :: (dashes3 ++ z)) := by simp
          rw [this]
          exact dashes_not_pref_line l2 _ (h2 l2 (by simp))
      have hstep : firstOcc nlDashes ('\n' :: (joinLines (l2 :: L'') ++ '\n' :: (dashes3 ++ z)))
          = (firstOcc nlDashes (joinLines (l2 :: L'') ++ '\n' :: (dashes3 ++ z))).map (· + 1) := by
        simp [firstOcc, nlDashes, List.isPrefixOf, hW]
      rw [hstep, ih (by simp) (fun x hx => h1 x (by simp [hx])) (fun x hx => h2 x (by simp [hx]))]
      simp [List.length_append, List.length_cons]
      omega

theorem stringify_eq_join (obj : Fm) (hne : obj ≠ []) :
    stringifyFm obj = joinLines (obj.map lineOf) ++ ['\n'] := by
  induction obj with
  | nil => exact absurd rfl hne
  | cons kv rest ih =>
    cases rest with
    | nil => rfl
    | cons kv2 rest2 =>
      rw [show stringifyFm (kv :: kv2 :: rest2)
          = lineOf kv ++ '\n' :: stringifyFm (kv2 :: rest2) from rfl]
      rw [ih (by simp)]
      simp [joinLines]

theorem okFm_head (k v : Chars) (rest : Fm) (h : okFm ((k, v) :: rest) = true) :
    okKey k = true ∧ okVal v = true ∧ okFm rest = true := by
  simpa [okFm, Bool.and_eq_true, and_assoc] using h

theorem lineOf_noNL (kv : Chars × Chars) (hk : okKey kv.1 = true) (hv : okVal kv.2 = true) :
    noNL (lineOf kv) = true := by
  obtain ⟨k, v⟩ := kv
  have h1 : noNL k = true := by
    simp only [okKey, Bool.and_eq_true] at hk
    exact hk.1.1
  simp only [okVal] at hv
  simp [lineOf, noNL, List.all_append, List.all_cons]
  refine ⟨by simpa [noNL] using h1, by simpa [noNL] using hv⟩

theorem lineOf_no_dashes (kv : Chars × Chars) (hk : okKey kv.1 = true) :
    dashes3.isPrefixOf (lineOf kv) = false := by
  obtain ⟨k, v⟩ := kv
  have h3 : dashes3.isPrefixOf k = false := by
    simp only [okKey, Bool.and_eq_true, Bool.not_eq_true'] at hk
    exact hk.2
  match k with
  | [] => rfl
  | [a] => simp [lineOf, dashes3, List.isPrefixOf]
  | [a, b] => simp [lineOf, dashes3, List.isPrefixOf]
  | a :: b :: c :: t =>
    simp only [dashes3, List.isPrefixOf, Bool.and_eq_true, lineOf, List.cons_append] at h3 ⊢
    simpa using h3

theorem lineOf_ne_nil (kv : Chars × Chars) : lineOf kv ≠ [] := by
  obtain ⟨k, v⟩ := kv
  cases k <;> simp [lineOf]

theorem firstOcc_lineOf (k v : Chars) (h : containsSub colonSp k = false) :
    firstOcc colonSp (k ++ ':' :: ' ' :: v) = some k.length := by
  induction k with
  | nil =>
    simp [firstOcc, colonSp, List.isPrefixOf]
  | cons c k' ih =>
    simp only [containsSub, Bool.or_eq_false_iff] at h
    have hcond : colonSp.isPrefixOf (c :: (k' ++ ':' :: ' ' :: v)) = false := by
      cases k' with
      | nil =>
        simp [colonSp, List.isPrefixOf, show ((' ' : Char) == ':') = false from rfl]
      | cons d k'' =>
        have := h.1
        simp only [colonSp, List.isPrefixOf, Bool.and_eq_true] at this ⊢
        simpa using this
    rw [List.cons_append]
    rw [show firstOcc colonSp (c :: (k' ++ ':' :: ' ' :: v))
        = (firstOcc colonSp (k' ++ ':' :: ' ' :: v)).map (· + 1) by
      simp [firstOcc, hcond]]
    rw [ih h.2]
    simp

theorem parseLine_lineOf (kv : Chars × Chars) (hk : okKey kv.1 = true) :
    parseLine (lineOf kv) = some kv := by
  obtain ⟨k, v⟩ := kv
  have h : containsSub colonSp k = false := by
    simp only [okKey, Bool.and_eq_true, Bool.not_eq_true'] at hk
    exact hk.1.2
  have hd : (k ++ ':' :: ' ' :: v).drop (k.length + 2) = v := by
    simpa using drop_app_plus k (':' :: ' ' :: v) 2
  simp [parseLine, lineOf, firstOcc_lineOf k v h, take_len_app, hd]

theorem parseLines_map (obj : Fm) (hwf : okFm obj = true) :
    parseLines (obj.map lineOf) = some obj := by
  induction obj with
  | nil => rfl
  | cons kv rest ih =>
    obtain ⟨k, v⟩ := kv
    obtain ⟨hk, hv, hrest⟩ := okFm_head k v rest hwf
    simp [parseLines, lineOf_ne_nil (k, v), parseLine_lineOf (k, v) hk, ih hrest]

theorem splitLines_app (l z : Chars) (h : noNL l = true) :
    splitLines (l ++ '\n' :: z) = l :: splitLines z := by
  induction l with
  | nil => simp [splitLines]
  | cons c t ih =>
    simp only [noNL, List.all_cons, Bool.and_eq_true] at h
    have hc : ¬ (c = '\n') := by simpa [bne_iff_ne] using h.1
    have ht : noNL t = true := by simp [noNL, h.2]
    rw [List.cons_append]
    simp [splitLines, hc, ih ht]

theorem splitLines_noNL (l : Chars) (h : noNL l = true) : splitLines l = [l] := by
  induction l with
  | nil => rfl
  | cons c t ih =>
    simp only [noNL, List.all_cons, Bool.and_eq_true] at h
    have hc : ¬ (c = '\n') := by simpa [bne_iff_ne] using h.1
    have ht : noNL t = true := by simp [noNL, h.2]
    simp [splitLines, hc, ih ht]

theorem splitLines_join (L : List Chars) (hne : L ≠ []) (h : ∀ l ∈ L, noNL l = true) :
    splitLines (joinLines L) = L := by
  induction L with
  | nil => exact absurd rfl hne
  | cons l L' ih =>
    cases L' with
    | nil => exact splitLines_noNL l (h l (by simp))
    | cons l2 L'' =>
      rw [show joinLines (l :: l2 :: L'') = l ++ '\n' :: joinLines (l2 :: L'') from rfl]
      rw [splitLines_app l _ (h l (by simp))]
      rw [ih (by simp) (fun x hx => h x (by simp [hx]))]

theorem okFm_mem (obj : Fm) (hwf : okFm obj = true) :
    ∀ kv ∈ obj, okKey kv.1 = true ∧ okVal kv.2 = true := by
  induction obj with
  | nil => intro kv hkv; simp at hkv
  | cons kv2 rest ih =>
    obtain ⟨k2, v2⟩ := kv2
    obtain ⟨hk2, hv2, hrest⟩ := okFm_head k2 v2 rest hwf
    intro kv hkv
    rcases List.mem_cons.mp hkv with h | h
    · subst h; exact ⟨hk2, hv2⟩
    · exact ih hrest kv h

theorem parseFm_join (obj : Fm) (hne : obj ≠ []) (hwf : okFm obj = true) :
    parseFm (joinLines (obj.map lineOf)) = some obj := by
  have hlines : ∀ l ∈ obj.map lineOf, noNL l = true := by
    intro l hl
    obtain ⟨kv, hkv, rfl⟩ := List.mem_map.mp hl
    obtain ⟨hk, hv⟩ := okFm_mem obj hwf kv hkv
    exact lineOf_noNL kv hk hv
  unfold parseFm
  rw [splitLines_join (obj.map lineOf) (by simpa using hne) hlines]
  exact parseLines_map obj hwf

theorem setKey_ne_nil (obj : Fm) (key val : Chars) : setKey obj key val ≠ [] := by
  cases obj with
  | nil => simp [setKey]
  | cons kv rest =>
    obtain ⟨k, v⟩ := kv
    by_cases h : k = key <;> simp [setKey, h]

theorem lookup_setKey_self (obj : Fm) (key val : Chars) :
    lookupFm (setKey obj key val) key = some val := by
  induction obj with
  | nil => simp [setKey, lookupFm]
  | cons kv rest ih =>
    obtain ⟨k, v⟩ := kv
    by_cases h : k = key
    · simp [setKey, h, lookupFm]
    · simp [setKey, h, lookupFm, ih]

theorem lookup_setKey_other (obj : Fm) (key val k2 : Chars) (h : k2 ≠ key) :
    lookupFm (setKey obj key val) k2 = lookupFm obj k2 := by
  induction obj with
  | nil => simp [setKey, lookupFm, Ne.symm h]
  | cons kv rest ih =>
    obtain ⟨k, v⟩ := kv
    by_cases hk : k = key
    · subst hk
      simp [setKey, lookupFm, Ne.symm h]
    · simp [setKey, hk, lookupFm, ih]

theorem okFm_setKey (obj : Fm) (key val : Chars) (hwf : okFm obj = true)
    (hk : okKey key = true) (hv : okVal val = true) :
    okFm (setKey obj key val) = true := by
  induction obj with
  | nil => simp [setKey, okFm, hk, hv]
  | cons kv rest ih =>
    obtain ⟨k, v⟩ := kv
    obtain ⟨h1, h2, h3⟩ := okFm_head k v rest hwf
    by_cases hkk : k = key
    · simp [setKey, hkk, okFm, hk, hv, h3]
    · simp [setKey, hkk, okFm, h1, h2, ih h3]

theorem matchFm_write (obj : Fm) (tail : Chars) (hne : obj ≠ []) (hwf : okFm obj = true) :
    matchFm (fmOpen ++ (stringifyFm obj ++ (dashes3 ++ tail)))
      = some (joinLines (obj.map lineOf), tail) := by
  have hlines1 : ∀ l ∈ obj.map lineOf, noNL l = true := by
    intro l hl
    obtain ⟨kv, hkv, rfl⟩ := List.mem_map.mp hl
    obtain ⟨hk, hv⟩ := okFm_mem obj hwf kv hkv
    exact lineOf_noNL kv hk hv
  have hlines2 : ∀ l ∈ obj.map lineOf, dashes3.isPrefixOf l = false := by
    intro l hl
    obtain ⟨kv, hkv, rfl⟩ := List.mem_map.mp hl
    exact lineOf_no_dashes kv (okFm_mem obj hwf kv hkv).1
  have hshape : stringifyFm obj ++ (dashes3 ++ tail)
      = joinLines (obj.map lineOf) ++ '\n' :: (dashes3 ++ tail) := by
    rw [stringify_eq_join obj hne]
    simp
  have hocc := firstOcc_join (obj.map lineOf) tail (by simpa using hne) hlines1 hlines2
  have hdrop4 : (fmOpen ++ (joinLines (obj.map lineOf) ++ '\n' :: (dashes3 ++ tail))).drop 4
      = joinLines (obj.map lineOf) ++ '\n' :: (dashes3 ++ tail) := rfl
  have htake : (joinLines (obj.map lineOf) ++ '\n' :: (dashes3 ++ tail)).take
      (joinLines (obj.map lineOf)).length = joinLines (obj.map lineOf) :=
    take_len_app _ _
  have hdrop : (joinLines (obj.map lineOf) ++ '\n' :: (dashes3 ++ tail)).drop
      ((joinLines (obj.map lineOf)).length + 4) = tail := by
    rw [drop_app_plus]
    rfl
  rw [hshape]
  rw [show matchFm (fmOpen ++ (joinLines (obj.map lineOf) ++ '\n' :: (dashes3 ++ tail)))
      = match firstOcc nlDashes (joinLines (obj.map lineOf) ++ '\n' :: (dashes3 ++ tail)) with
        | none => none
        | some i => some ((joinLines (obj.map lineOf) ++ '\n' :: (dashes3 ++ tail)).take i,
            (joinLines (obj.map lineOf) ++ '\n' :: (dashes3 ++ tail)).drop (i + 4)) by
    simp [matchFm, isPrefixOf_app_self, hdrop4]]
  rw [hocc]
  simp [htake, hdrop]

theorem batch_not_processed (b : Nat) (evs : List DragObsEv) :
    ∀ st : DragObsState, b ∉ st.processedBatches → some b ∉ st.timers →
      DragObsEv.mutationBatch b ∉ evs →
      b ∉ (runEvents st evs).processedBatches ∧ some b ∉ (runEvents st evs).timers := by
  induction evs with
  | nil =>
    intro st h1 h2 _
    exact ⟨by simpa [runEvents] using h1, by simpa [runEvents] using h2⟩
  | cons ev rest ih =>
    intro st h1 h2 hev
    have hstep : b ∉ (dragObsStep st ev).processedBatches ∧
        some b ∉ (dragObsStep st ev).timers := by
      cases ev with
      | mutationBatch b2 =>
        have hb2 : b2 ≠ b := by
          intro hh
          exact hev (by simp [hh])
        by_cases hp : st.isProcessing
        · exact ⟨by simpa [dragObsStep, hp] using h1, by simpa [dragObsStep, hp] using h2⟩
        · refine ⟨by simpa [dragObsStep, hp] using h1, ?_⟩
          simp only [dragObsStep, hp, if_false, Bool.false_eq_true, ite_false]
          simp [List.mem_append, h2, hb2]
          intro hh
          exact absurd hh.symm hb2
      | dragEnd e2 =>
        by_cases hp : (!st.activeKanbanBoard || st.isProcessing) = true
        · exact ⟨by simpa [dragObsStep, hp] using h1, by simpa [dragObsStep, hp] using h2⟩
        · refine ⟨by simpa [dragObsStep, hp] using h1, ?_⟩
          simp [dragObsStep, hp, List.mem_append, h2]
      | fireTimer =>
        cases ht : st.timers with
        | nil => exact ⟨by simpa [dragObsStep, ht] using h1, by simpa [dragObsStep, ht] using h2⟩
        | cons t ts =>
          have hts : some b ∉ ts := by
            intro hh
            exact h2 (by simp [ht, hh])
          cases t with
          | none =>
            exact ⟨by simpa [dragObsStep, ht] using h1, by simpa [dragObsStep, ht] using hts⟩
          | some b3 =>
            have hb3 : b3 ≠ b := by
              intro hh
              exact h2 (by simp [ht, hh])
            refine ⟨?_, by simpa [dragObsStep, ht] using hts⟩
            simp [dragObsStep, ht, List.mem_append, h1]
            intro hh
            exact absurd hh.symm hb3
    exact ih (dragObsStep st ev) hstep.1 hstep.2 (fun hh => hev (List.mem_cons_of_mem _ hh))

theorem drag_not_processed (e : Nat) (evs : List DragObsEv) :
    ∀ st : DragObsState, e ∉ st.processedDrags → DragObsEv.dragEnd e ∉ evs →
      e ∉ (runEvents st evs).processedDrags := by
  induction evs with
  | nil =>
    intro st h1 _
    simpa [runEvents] using h1
  | cons ev rest ih =>
    intro st h1 hev
    have hstep : e ∉ (dragObsStep st ev).processedDrags := by
      cases ev with
      | mutationBatch b2 =>
        by_cases hp : st.isProcessing <;> simpa [dragObsStep, hp] using h1
      | dragEnd e2 =>
        have he2 : e2 ≠ e := by
          intro hh
          exact hev (by simp [hh])
        by_cases hp : (!st.activeKanbanBoard || st.isProcessing) = true
        · simpa [dragObsStep, hp] using h1
        · simp [dragObsStep, hp, List.mem_append, h1]
          intro hh
          exact absurd hh.symm he2
      | fireTimer =>
        cases ht : st.timers with
        | nil => simpa [dragObsStep, ht] using h1
        | cons t ts =>
          cases t with
          | none => simpa [dragObsStep, ht] using h1
          | some b3 => simpa [dragObsStep, ht] using h1
    exact ih (dragObsStep st ev) hstep (fun hh => hev (List.mem_cons_of_mem _ hh))

theorem batchB_not_processed (b : Nat) (evs : List MutObsEvB) :
    ∀ st : MutObsStateB, b ∉ st.processedBatches → b ∉ st.timers →
      (∀ r, MutObsEvB.mutationBatch b r ∉ evs) →
      b ∉ (runEventsB st evs).processedBatches ∧ b ∉ (runEventsB st evs).timers := by
  induction evs with
  | nil =>
    intro st h1 h2 _
    exact ⟨by simpa [runEventsB] using h1, by simpa [runEventsB] using h2⟩
  | cons ev rest ih =>
    intro st h1 h2 hev
    have hstep : b ∉ (mutObsStepB st ev).processedBatches ∧ b ∉ (mutObsStepB st ev).timers := by
      cases ev with
      | mutationBatch b2 r =>
        have hb2 : b2 ≠ b := by
          intro hh
          exact hev r (by simp [hh])
        by_cases hp : (st.isProcessingMutation || st.isManuallyProcessing) = true
        · exact ⟨by simpa [mutObsStepB, hp] using h1, by simpa [mutObsStepB, hp] using h2⟩
        · cases r with
          | false =>
            exact ⟨by simpa [mutObsStepB, hp] using h1, by simpa [mutObsStepB, hp] using h2⟩
          | true =>
            refine ⟨by simpa [mutObsStepB, hp] using h1, ?_⟩
            simp [mutObsStepB, hp, List.mem_append, h2]
            intro hh
            exact absurd hh.symm hb2
      | fireTimer =>
        cases ht : st.timers with
        | nil => exact ⟨by simpa [mutObsStepB, ht] using h1, by simpa [mutObsStepB, ht] using h2⟩
        | cons b3 ts =>
          have hts : b ∉ ts := by
            intro hh
            exact h2 (by simp [ht, hh])
          have hb3 : b3 ≠ b := by
            intro hh
            exact h2 (by simp [ht, hh])
          refine ⟨?_, by simpa [mutObsStepB, ht] using hts⟩
          simp [mutObsStepB, ht, List.mem_append, h1]
          intro hh
          exact absurd hh.symm hb3
      | manualStart =>
        exact ⟨by simpa [mutObsStepB] using h1, by simpa [mutObsStepB] using h2⟩
      | manualEnd =>
        exact ⟨by simpa [mutObsStepB] using h1, by simpa [mutObsStepB] using h2⟩
    exact ih (mutObsStepB st ev) hstep.1 hstep.2 (fun r hh => hev r (List.mem_cons_of_mem _ hh))

theorem mutationsToProcess_take (muts : List MRecord) :
    mutationsToProcess muts = muts.take 10 := by
  by_cases h : muts.length > 10
  · simp [mutationsToProcess, h]
  · have hle : muts.length ≤ 10 := by omega
    simp [mutationsToProcess, h, take_all_of_le muts 10 hle]

theorem setKey_idem (obj : Fm) (key val : Chars) :
    setKey (setKey obj key val) key val = setKey obj key val := by
  induction obj with
  | nil => simp [setKey]
  | cons kv rest ih =>
    obtain ⟨k, v⟩ := kv
    by_cases h : k = key
    · simp [setKey, h]
    · simp [setKey, h, ih]

/-- Claim C1 counterexample: the claim also covers updateNoteStatus of
src/unnamed/part_000 (lines 342-362), which sets the property and calls
vault.modify unconditionally, with no value-unchanged check; a file whose
frontmatter already holds the new status is still written, so the claim
as stated is false for that cited variant. -/
theorem c1_counterexample :
    ¬ (∀ (s : KanbanStatusUpdaterSettings) (vault : Chars → Option Chars)
        (notePath status content body rest : Chars) (obj : Fm),
        vault notePath = some content →
        matchFm content = some (body, rest) →
        parseFm body = some obj →
        lookupFm obj s.statusPropertyName = some status →
        (updateNoteStatusOld s vault notePath status).write = none) := by
  intro h
  exact absurd
    (h DEFAULT_SETTINGS (fun _ => some ("---\nstatus: Doing\n---\nBody".toList))
      ("note".toList) ("Doing".toList) ("---\nstatus: Doing\n---\nBody".toList)
      ("status: Doing".toList) ("\nBody".toList) [("status".toList, "Doing".toList)]
      rfl (by decide) (by decide) (by decide))
    (by decide)

/-- Claim C1 as amended: for updateNoteStatus of src/main.ts (lines
437-463, which has the value-unchanged check), if the file's frontmatter
already maps the configured status property to a value equal to the new
status, no file write happens, and whatever a first call wrote is a
no-write fixpoint of a second call.  The older src/unnamed/part_000
variant instead calls vault.modify unconditionally, even when the value
is already equal; for it the guarantee is only that a second call writes
back byte-identical content (the stored content is unchanged, though a
write occurs).  Stated over the well-formed domain of the model YAML
layer (okKey / okVal / okContent). -/
theorem c1_idempotent_update (s : KanbanStatusUpdaterSettings)
    (vault vault2 : Chars → Option Chars) (notePath status content c2 : Chars)
    (hk : okKey s.statusPropertyName = true) (hv : okVal status = true)
    (hc : okContent content = true)
    (hread : vault notePath = some content) :
    (∀ body rest obj, matchFm content = some (body, rest) → parseFm body = some obj →
        lookupFm obj s.statusPropertyName = some status →
        (updateNoteStatus s vault notePath status).write = none)
    ∧ ((updateNoteStatus s vault notePath status).write = some c2 →
        vault2 notePath = some c2 →
        (updateNoteStatus s vault2 notePath status).write = none)
    ∧ (∀ body rest obj, matchFm content = some (body, rest) → parseFm body = some obj →
        lookupFm obj s.statusPropertyName = some status →
        ∃ c3, (updateNoteStatusOld s vault notePath status).write = some c3)
    ∧ ((updateNoteStatusOld s vault notePath status).write = some c2 →
        vault2 notePath = some c2 →
        (updateNoteStatusOld s vault2 notePath status).write = some c2) := by
  have hmain : ∀ c3, (updateContent s status content).write = some c3 →
      (updateContent s status c3).write = none := by
    intro c3 hw
    rcases hm : matchFm content with _ | ⟨body, rest⟩
    · have hobj : okFm [(s.statusPropertyName, status)] = true := by
        simp [okFm, hk, hv]
      have hne2 : ([(s.statusPropertyName, status)] : Fm) ≠ [] := by simp
      have hm2 := matchFm_write [(s.statusPropertyName, status)]
        ('\n' :: '\n' :: content) hne2 hobj
      have hp2 : parseFm (joinLines [lineOf (s.statusPropertyName, status)])
          = some [(s.statusPropertyName, status)] := by
        simpa using parseFm_join [(s.statusPropertyName, status)] hne2 hobj
      simp only [updateContent, hm, Option.some.injEq] at hw
      subst hw
      simp [updateContent, hm2, hp2, lookupFm]
    · have hofm : okFm ((parseFm body).getD []) = true := by
        simpa [okContent, hm] using hc
      by_cases hl : lookupFm ((parseFm body).getD []) s.statusPropertyName = some status
      · simp [updateContent, hm, hl] at hw
      · have hne2 := setKey_ne_nil ((parseFm body).getD []) s.statusPropertyName status
        have hofm2 := okFm_setKey ((parseFm body).getD []) s.statusPropertyName status
          hofm hk hv
        have hm2 := matchFm_write (setKey ((parseFm body).getD []) s.statusPropertyName status)
          rest hne2 hofm2
        have hp2 := parseFm_join (setKey ((parseFm body).getD []) s.statusPropertyName status)
          hne2 hofm2
        have hls := lookup_setKey_self ((parseFm body).getD []) s.statusPropertyName status
        simp only [updateContent, hm, hl, if_false, Option.some.injEq] at hw
        subst hw
        simp [updateContent, hm2, hp2, hls]
  have hmainOld : ∀ c3, (updateNoteStatusOld s vault notePath status).write = some c3 →
      ∀ vault3 : Chars → Option Chars, vault3 notePath = some c3 →
      (updateNoteStatusOld s vault3 notePath status).write = some c3 := by
    intro c3 hw vault3 hread3
    rcases hm : matchFm content with _ | ⟨body, rest⟩
    · have hobj : okFm [(s.statusPropertyName, status)] = true := by
        simp [okFm, hk, hv]
      have hne2 : ([(s.statusPropertyName, status)] : Fm) ≠ [] := by simp
      have hm2 := matchFm_write [(s.statusPropertyName, status)]
        ('\n' :: '\n' :: content) hne2 hobj
      have hp2 : parseFm (joinLines [lineOf (s.statusPropertyName, status)])
          = some [(s.statusPropertyName, status)] := by
        simpa using parseFm_join [(s.statusPropertyName, status)] hne2 hobj
      simp only [updateNoteStatusOld, hread, hm, Option.some.injEq] at hw
      subst hw
      simp [updateNoteStatusOld, hread3, hm2, hp2, setKey]
    · have hofm : okFm ((parseFm body).getD []) = true := by
        simpa [okContent, hm] using hc
      have hne2 := setKey_ne_nil ((parseFm body).getD []) s.statusPropertyName status
      have hofm2 := okFm_setKey ((parseFm body).getD []) s.statusPropertyName status
        hofm hk hv
      have hm2 := matchFm_write (setKey ((parseFm body).getD []) s.statusPropertyName status)
        rest hne2 hofm2
      have hp2 := parseFm_join (setKey ((parseFm body).getD []) s.statusPropertyName status)
        hne2 hofm2
      simp only [updateNoteStatusOld, hread, hm, Option.some.injEq] at hw
      subst hw
      simp [updateNoteStatusOld, hread3, hm2, hp2, setKey_idem]
  refine ⟨?_, ?_, ?_, ?_⟩
  · intro body rest obj hmm hp hl
    simp [updateNoteStatus, hread, updateContent, hmm, hp, hl]
  · intro hw hread2
    have hw2 : (updateContent s status content).write = some c2 := by
      simpa [updateNoteStatus, hread] using hw
    have := hmain c2 hw2
    simpa [updateNoteStatus, hread2] using this
  · intro body rest obj hmm hp hl
    refine ⟨fmOpen ++ (stringifyFm (setKey obj s.statusPropertyName status) ++
      (dashes3 ++ rest)), ?_⟩
    simp [updateNoteStatusOld, hread, hmm, hp]
  · intro hw hread2
    exact hmainOld c2 hw vault2 hread2

/-- Claim C1 witness: a file whose frontmatter already holds status Doing
is not written again by the src/main.ts variant, while the part_000
variant still performs a write, for the default settings. -/
theorem c1_witness :
    (updateNoteStatus DEFAULT_SETTINGS
      (fun _ => some ("---\nstatus: Doing\n---\nBody".toList))
      ("note".toList) ("Doing".toList)).write = none ∧
    ∃ c3, (updateNoteStatusOld DEFAULT_SETTINGS
      (fun _ => some ("---\nstatus: Doing\n---\nBody".toList))
      ("note".toList) ("Doing".toList)).write = some c3 := by
  have h := c1_idempotent_update DEFAULT_SETTINGS
    (fun _ => some ("---\nstatus: Doing\n---\nBody".toList))
    (fun _ => some ("---\nstatus: Doing\n---\nBody".toList))
    ("note".toList) ("Doing".toList) ("---\nstatus: Doing\n---\nBody".toList) []
    (by decide) (by decide) (by decide) rfl
  exact ⟨h.1 ("status: Doing".toList) ("\nBody".toList)
      [("status".toList, "Doing".toList)] (by decide) (by decide) (by decide),
    h.2.2.1 ("status: Doing".toList) ("\nBody".toList)
      [("status".toList, "Doing".toList)] (by decide) (by decide) (by decide)⟩

/-- Claim C2: for a note whose content begins with a parseable frontmatter
block and a new status differing from the stored one, updateNoteStatus
writes back a file whose frontmatter block maps the status property to
the new status, maps every other key to its original value, and whose
text after the block is the original text after the block, byte for byte.
Stated over the well-formed domain of the model YAML layer. -/
theorem c2_roundtrip_preserves_rest (s : KanbanStatusUpdaterSettings)
    (vault : Chars → Option Chars) (notePath status content body rest : Chars) (obj : Fm)
    (hread : vault notePath = some content)
    (hm : matchFm content = some (body, rest))
    (hp : parseFm body = some obj)
    (hdiff : lookupFm obj s.statusPropertyName ≠ some status)
    (hwf : okFm obj = true)
    (hk : okKey s.statusPropertyName = true) (hv : okVal status = true) :
    ∃ c2,
      (updateNoteStatus s vault notePath status).write = some c2 ∧
      matchFm c2 = some (joinLines ((setKey obj s.statusPropertyName status).map lineOf), rest) ∧
      parseFm (joinLines ((setKey obj s.statusPropertyName status).map lineOf))
        = some (setKey obj s.statusPropertyName status) ∧
      lookupFm (setKey obj s.statusPropertyName status) s.statusPropertyName = some status ∧
      ∀ k2, k2 ≠ s.statusPropertyName →
        lookupFm (setKey obj s.statusPropertyName status) k2 = lookupFm obj k2 := by
  have hne2 := setKey_ne_nil obj s.statusPropertyName status
  have hofm2 := okFm_setKey obj s.statusPropertyName status hwf hk hv
  refine ⟨fmOpen ++ (stringifyFm (setKey obj s.statusPropertyName status) ++ (dashes3 ++ rest)),
    ?_, ?_, ?_, ?_, ?_⟩
  · simp [updateNoteStatus, hread, updateContent, hm, hp, hdiff]
  · exact matchFm_write _ rest hne2 hofm2
  · exact parseFm_join _ hne2 hofm2
  · exact lookup_setKey_self obj s.statusPropertyName status
  · intro k2 hk2
    exact lookup_setKey_other obj s.statusPropertyName status k2 hk2

/-- Claim C2 witness: the spec's own example, status Todo and priority
high, updated to Doing. -/
theorem c2_witness :
    ∃ c2,
      (updateNoteStatus DEFAULT_SETTINGS
        (fun _ => some ("---\nstatus: Todo\npriority: high\n---\nBody".toList))
        ("note".toList) ("Doing".toList)).write = some c2 ∧
      matchFm c2 = some (joinLines ((setKey
          [("status".toList, "Todo".toList), ("priority".toList, "high".toList)]
          DEFAULT_SETTINGS.statusPropertyName ("Doing".toList)).map lineOf), "\nBody".toList) ∧
      parseFm (joinLines ((setKey
          [("status".toList, "Todo".toList), ("priority".toList, "high".toList)]
          DEFAULT_SETTINGS.statusPropertyName ("Doing".toList)).map lineOf))
        = some (setKey
          [("status".toList, "Todo".toList), ("priority".toList, "high".toList)]
          DEFAULT_SETTINGS.statusPropertyName ("Doing".toList)) ∧
      lookupFm (setKey
          [("status".toList, "Todo".toList), ("priority".toList, "high".toList)]
          DEFAULT_SETTINGS.statusPropertyName ("Doing".toList))
          DEFAULT_SETTINGS.statusPropertyName = some ("Doing".toList) ∧
      ∀ k2, k2 ≠ DEFAULT_SETTINGS.statusPropertyName →
        lookupFm (setKey
            [("status".toList, "Todo".toList), ("priority".toList, "high".toList)]
            DEFAULT_SETTINGS.statusPropertyName ("Doing".toList)) k2
          = lookupFm [("status".toList, "Todo".toList), ("priority".toList, "high".toList)] k2 := by
  exact c2_roundtrip_preserves_rest DEFAULT_SETTINGS
    (fun _ => some ("---\nstatus: Todo\npriority: high\n---\nBody".toList))
    ("note".toList) ("Doing".toList)
    ("---\nstatus: Todo\npriority: high\n---\nBody".toList)
    ("status: Todo\npriority: high".toList) ("\nBody".toList)
    [("status".toList, "Todo".toList), ("priority".toList, "high".toList)]
    rfl (by decide) (by decide) (by decide) (by decide) (by decide) (by decide)

/-- Claim C3: for a note with no frontmatter block, updateNoteStatus
writes exactly a new block, three dashes, newline, the YAML line for the
configured property, newline, three dashes, then a blank line, then the
original content unchanged. -/
theorem c3_creates_frontmatter (s : KanbanStatusUpdaterSettings)
    (vault : Chars → Option Chars) (notePath status content : Chars)
    (hread : vault notePath = some content)
    (hm : matchFm content = none) :
    (updateNoteStatus s vault notePath status).write =
      some (('-' :: '-' :: '-' :: '\n' :: []) ++
        ((s.statusPropertyName ++ ':' :: ' ' :: status) ++
          ('\n' :: '-' :: '-' :: '-' :: '\n' :: '\n' :: content))) := by
  simp [updateNoteStatus, hread, updateContent, hm, stringifyFm, lineOf, fmOpen, dashes3]

/-- Claim C3 witness: a file of plain text gains exactly the new block. -/
theorem c3_witness :
    (updateNoteStatus DEFAULT_SETTINGS (fun _ => some ("Body only".toList))
      ("note".toList) ("Doing".toList)).write
      = some ("---\nstatus: Doing\n---\n\nBody only".toList) := by
  have h := c3_creates_frontmatter DEFAULT_SETTINGS (fun _ => some ("Body only".toList))
    ("note".toList) ("Doing".toList) ("Body only".toList) rfl (by decide)
  rw [h]
  decide

/-- Claim C4: when the leading frontmatter block exists but fails YAML
parsing, updateNoteStatus proceeds with an empty object, so the written
file's frontmatter holds only the configured status property and every
previously present key is discarded; no warning is surfaced (the only
notice, when notifications are on, is the plain Set notice). -/
theorem c4_parse_failure_discards (s : KanbanStatusUpdaterSettings)
    (vault : Chars → Option Chars) (notePath status content body rest : Chars)
    (hread : vault notePath = some content)
    (hk : okKey s.statusPropertyName = true) (hv : okVal status = true)
    (hm : matchFm content = some (body, rest))
    (hp : parseFm body = none) :
    updateNoteStatus s vault notePath status =
      { write := some (fmOpen ++ (stringifyFm [(s.statusPropertyName, status)] ++
          (dashes3 ++ rest)))
        notices := if s.showNotifications then [KNotice.setStatus status] else [] } ∧
    matchFm (fmOpen ++ (stringifyFm [(s.statusPropertyName, status)] ++ (dashes3 ++ rest)))
      = some (lineOf (s.statusPropertyName, status), rest) ∧
    parseFm (lineOf (s.statusPropertyName, status)) = some [(s.statusPropertyName, status)] := by
  have hobj : okFm [(s.statusPropertyName, status)] = true := by simp [okFm, hk, hv]
  have hne2 : ([(s.statusPropertyName, status)] : Fm) ≠ [] := by simp
  refine ⟨?_, ?_, ?_⟩
  · simp [updateNoteStatus, hread, updateContent, hm, hp, lookupFm, setKey]
  · simpa using matchFm_write [(s.statusPropertyName, status)] rest hne2 hobj
  · simpa using parseFm_join [(s.statusPropertyName, status)] hne2 hobj

/-- Claim C4 witness: a block whose line is not a mapping loses its text;
only the status property survives. -/
theorem c4_witness :
    updateNoteStatus DEFAULT_SETTINGS
      (fun _ => some ("---\nnot yaml at all\n---\nBody".toList))
      ("note".toList) ("Doing".toList) =
      { write := some (fmOpen ++ (stringifyFm [(DEFAULT_SETTINGS.statusPropertyName,
          "Doing".toList)] ++ (dashes3 ++ "\nBody".toList)))
        notices := if DEFAULT_SETTINGS.showNotifications
          then [KNotice.setStatus ("Doing".toList)] else [] } ∧
    matchFm (fmOpen ++ (stringifyFm [(DEFAULT_SETTINGS.statusPropertyName, "Doing".toList)] ++
        (dashes3 ++ "\nBody".toList)))
      = some (lineOf (DEFAULT_SETTINGS.statusPropertyName, "Doing".toList), "\nBody".toList) ∧
    parseFm (lineOf (DEFAULT_SETTINGS.statusPropertyName, "Doing".toList))
      = some [(DEFAULT_SETTINGS.statusPropertyName, "Doing".toList)] := by
  exact c4_parse_failure_discards DEFAULT_SETTINGS
    (fun _ => some ("---\nnot yaml at all\n---\nBody".toList))
    ("note".toList) ("Doing".toList)
    ("---\nnot yaml at all\n---\nBody".toList) ("not yaml at all".toList) ("\nBody".toList)
    rfl (by decide) (by decide) (by decide) (by decide)

/-- Claim C5 counterexample: the claim says an unresolvable link always
shows a warning notice; with the default settings (showNotifications off,
src/main.ts line 402) no notice is shown, though no file is written. -/
theorem c5_counterexample :
    ¬ (∀ (s : KanbanStatusUpdaterSettings) (vault : Chars → Option Chars)
        (notePath status : Chars),
        vault notePath = none →
        (updateNoteStatus s vault notePath status).write = none ∧
        (updateNoteStatus s vault notePath status).notices ≠ []) := by
  intro h
  exact (h DEFAULT_SETTINGS (fun _ => none) [] [] rfl).2 rfl

/-- Claim C5 as amended: when the link does not resolve, updateNoteStatus
writes nothing and creates nothing, and shows the warning notice exactly
when showNotifications is enabled; the older variant in
src/unnamed/part_000 shows the warning unconditionally. -/
theorem c5_unresolved_aborts (s : KanbanStatusUpdaterSettings)
    (vault : Chars → Option Chars) (notePath status : Chars)
    (h : vault notePath = none) :
    updateNoteStatus s vault notePath status =
      { write := none
        notices := if s.showNotifications then [KNotice.warnNotFound notePath] else [] } ∧
    updateNoteStatusOld s vault notePath status =
      { write := none, notices := [KNotice.warnNotFound notePath] } := by
  constructor
  · simp [updateNoteStatus, h]
  · simp [updateNoteStatusOld, h]

/-- Claim C5 witness: with notifications on, the warning is shown and
nothing is written. -/
theorem c5_witness :
    updateNoteStatus
        { statusPropertyName := "status".toList, showNotifications := true, debugMode := false }
        (fun _ => none) ("missing".toList) ("Doing".toList) =
      { write := none, notices := [KNotice.warnNotFound ("missing".toList)] } ∧
    updateNoteStatusOld
        { statusPropertyName := "status".toList, showNotifications := true, debugMode := false }
        (fun _ => none) ("missing".toList) ("Doing".toList) =
      { write := none, notices := [KNotice.warnNotFound ("missing".toList)] } := by
  exact c5_unresolved_aborts
    { statusPropertyName := "status".toList, showNotifications := true, debugMode := false }
    (fun _ => none) ("missing".toList) ("Doing".toList) rfl

/-- Claim C6: a card with no internal-link anchor, or whose anchor has
neither a data-href nor an href attribute, is never forwarded to
updateNoteStatus: no file is written and no notice is shown. -/
theorem c6_no_link_no_write (item : CardItem)
    (h : item.internalLink = none ∨
      ∃ link, item.internalLink = some link ∧ link.dataHref = none ∧ link.href = none) :
    processKanbanItem item = ItemAction.noAction ∧
    ∀ (s : KanbanStatusUpdaterSettings) (vault : Chars → Option Chars),
      runKanbanItem s vault item = { write := none, notices := [] } := by
  have hp : processKanbanItem item = ItemAction.noAction := by
    rcases h with h | ⟨link, hl, hd, hh⟩
    · simp [processKanbanItem, h]
    · simp [processKanbanItem, hl, hd, hh, attrOr]
  exact ⟨hp, fun s vault => by simp [runKanbanItem, hp]⟩

/-- Claim C6 witness: a linkless card produces no action and no result. -/
theorem c6_witness :
    processKanbanItem { internalLink := none, lane := none } = ItemAction.noAction ∧
    ∀ (s : KanbanStatusUpdaterSettings) (vault : Chars → Option Chars),
      runKanbanItem s vault { internalLink := none, lane := none }
        = { write := none, notices := [] } := by
  exact c6_no_link_no_write { internalLink := none, lane := none } (Or.inl rfl)

/-- Claim C7 counterexample: the claim says the notePath equals data-href
whenever that attribute is present; an anchor with an empty data-href and
a nonempty href reaches updateNoteStatus with the href value instead (the
JS or-operator treats the empty string as falsy). -/
theorem c7_counterexample :
    ¬ (∀ (item : CardItem) (notePath status : Chars),
        processKanbanItem item = ItemAction.update notePath status →
        (∃ lane title, item.lane = some lane ∧ lane.laneTitle = some title ∧
          status = trimChars title) ∧
        specLinkPath item = some notePath) := by
  intro h
  have hx := h
    { internalLink := some { dataHref := some [], href := some ('n' :: []), textContent := [] }
      lane := some { laneTitle := some ('D' :: []) } }
    ('n' :: []) ('D' :: []) (by decide)
  have := hx.2
  simp [specLinkPath] at this

/-- Claim C7 as amended: whenever processKanbanItem reaches
updateNoteStatus, the status equals the lane header text trimmed, and the
notePath is nonempty and equals the data-href attribute when that
attribute is present AND nonempty, otherwise the href attribute. -/
theorem c7_link_and_status_extraction (item : CardItem) (notePath status : Chars)
    (h : processKanbanItem item = ItemAction.update notePath status) :
    (∃ lane title, item.lane = some lane ∧ lane.laneTitle = some title ∧
      status = trimChars title) ∧
    ∃ link, item.internalLink = some link ∧ notePath ≠ [] ∧
      ((∃ d, link.dataHref = some d ∧ d ≠ [] ∧ notePath = d) ∨
        ((link.dataHref = none ∨ link.dataHref = some []) ∧ link.href = some notePath)) := by
  obtain ⟨ilink, lane⟩ := item
  cases ilink with
  | none => exact absurd h (by simp [processKanbanItem])
  | some link =>
    obtain ⟨dh, hr, tc⟩ := link
    rcases hlp : attrOr dh hr with _ | p
    · exact absurd h (by simp [processKanbanItem, hlp])
    · by_cases hp : p = []
      · subst hp
        exact absurd h (by simp [processKanbanItem, hlp])
      · cases lane with
        | none => exact absurd h (by simp [processKanbanItem, hlp, hp])
        | some laneEl =>
          obtain ⟨lt⟩ := laneEl
          cases lt with
          | none => exact absurd h (by simp [processKanbanItem, hlp, hp])
          | some t =>
            have h2 : p = notePath ∧ trimChars t = status := by
              simpa [processKanbanItem, hlp, hp] using h
            obtain ⟨hpn, hts⟩ := h2
            subst hpn
            refine ⟨⟨{ laneTitle := some t }, t, rfl, rfl, hts.symm⟩,
              ⟨{ dataHref := dh, href := hr, textContent := tc }, rfl, hp, ?_⟩⟩
            cases dh with
            | none =>
              right
              refine ⟨Or.inl rfl, ?_⟩
              simpa [attrOr] using hlp
            | some d =>
              by_cases hd : d = []
              · subst hd
                right
                refine ⟨Or.inr rfl, ?_⟩
                simpa [attrOr] using hlp
              · left
                have hdp : some d = some p := by simpa [attrOr, hd] using hlp
                exact ⟨d, rfl, hd, by injection hdp with hh; exact hh.symm⟩

/-- Claim C7 witness: a card with a nonempty data-href in a lane titled
Doing with surrounding blanks reaches the update with that path and the
trimmed title. -/
theorem c7_witness :
    (∃ lane title, c7Item.lane = some lane ∧ lane.laneTitle = some title ∧
      ('D' :: 'o' :: 'i' :: 'n' :: 'g' :: []) = trimChars title) ∧
    ∃ link, c7Item.internalLink = some link ∧
      ('n' :: 'o' :: 't' :: 'e' :: []) ≠ ([] : Chars) ∧
      ((∃ d, link.dataHref = some d ∧ d ≠ [] ∧ ('n' :: 'o' :: 't' :: 'e' :: []) = d) ∨
        ((link.dataHref = none ∨ link.dataHref = some []) ∧
          link.href = some ('n' :: 'o' :: 't' :: 'e' :: []))) := by
  exact c7_link_and_status_extraction c7Item
    ('n' :: 'o' :: 't' :: 'e' :: []) ('D' :: 'o' :: 'i' :: 'n' :: 'g' :: []) (by decide)

/-- Claim C8: when a busy flag is set, a newly delivered mutation batch or
dragend event is dropped: the handler state is unchanged (nothing queued),
and, as long as that same batch or event is not delivered again, it never
appears among the processed ones under any later event sequence.  Covers
the single isProcessing flag of the first class definition and the
isProcessingMutation / isManuallyProcessing pair of the second. -/
theorem c8_busy_flag_drops_events (st : DragObsState) (stB : MutObsStateB) (b e bB : Nat)
    (hA : st.isProcessing = true)
    (hB : stB.isProcessingMutation = true ∨ stB.isManuallyProcessing = true) :
    dragObsStep st (DragObsEv.mutationBatch b) = st ∧
    dragObsStep st (DragObsEv.dragEnd e) = st ∧
    (∀ evs, b ∉ st.processedBatches → some b ∉ st.timers →
      DragObsEv.mutationBatch b ∉ evs →
      b ∉ (runEvents (dragObsStep st (DragObsEv.mutationBatch b)) evs).processedBatches) ∧
    (∀ evs, e ∉ st.processedDrags → DragObsEv.dragEnd e ∉ evs →
      e ∉ (runEvents (dragObsStep st (DragObsEv.dragEnd e)) evs).processedDrags) ∧
    (∀ r, mutObsStepB stB (MutObsEvB.mutationBatch bB r) = stB) ∧
    (∀ evsB r, bB ∉ stB.processedBatches → bB ∉ stB.timers →
      (∀ r2, MutObsEvB.mutationBatch bB r2 ∉ evsB) →
      bB ∉ (runEventsB (mutObsStepB stB (MutObsEvB.mutationBatch bB r)) evsB).processedBatches) := by
  have hdropA : dragObsStep st (DragObsEv.mutationBatch b) = st := by
    simp [dragObsStep, hA]
  have hdropA2 : dragObsStep st (DragObsEv.dragEnd e) = st := by
    simp [dragObsStep, hA]
  have hflagB : (stB.isProcessingMutation || stB.isManuallyProcessing) = true := by
    rcases hB with h | h <;> simp [h]
  have hdropB : ∀ r, mutObsStepB stB (MutObsEvB.mutationBatch bB r) = stB := by
    intro r
    simp [mutObsStepB, hflagB]
  refine ⟨hdropA, hdropA2, ?_, ?_, hdropB, ?_⟩
  · intro evs h1 h2 hev
    rw [hdropA]
    exact (batch_not_processed b evs st h1 h2 hev).1
  · intro evs h1 hev
    rw [hdropA2]
    exact drag_not_processed e evs st h1 hev
  · intro evsB r h1 h2 hev
    rw [hdropB r]
    exact (batchB_not_processed bB evsB stB h1 h2 hev).1

/-- Claim C8 witness: a busy state drops a delivered batch, which stays
unprocessed even after pending timers fire, in both variants. -/
theorem c8_witness :
    dragObsStep ⟨true, true, [], [], []⟩ (DragObsEv.mutationBatch 5) = ⟨true, true, [], [], []⟩ ∧
    5 ∉ (runEvents (dragObsStep ⟨true, true, [], [], []⟩ (DragObsEv.mutationBatch 5))
      [DragObsEv.fireTimer, DragObsEv.fireTimer]).processedBatches ∧
    mutObsStepB ⟨true, false, [], []⟩ (MutObsEvB.mutationBatch 9 true) = ⟨true, false, [], []⟩ := by
  have h := c8_busy_flag_drops_events ⟨true, true, [], [], []⟩ ⟨true, false, [], []⟩
    5 7 9 rfl (Or.inl rfl)
  exact ⟨h.1, h.2.2.1 [DragObsEv.fireTimer, DragObsEv.fireTimer]
    (by simp) (by simp) (by decide), h.2.2.2.2.1 true⟩

/-- Claim C9: the frontmatter regex is anchored at the start of the file:
content that does not begin with exactly dash-dash-dash-newline has no
match, and updateNoteStatus prepends a fresh block instead of updating
the existing one. -/
theorem c9_anchored_at_start (s : KanbanStatusUpdaterSettings)
    (vault : Chars → Option Chars) (notePath status content : Chars)
    (hread : vault notePath = some content)
    (h : fmOpen.isPrefixOf content = false) :
    matchFm content = none ∧
    (updateNoteStatus s vault notePath status).write =
      some (('-' :: '-' :: '-' :: '\n' :: []) ++
        ((s.statusPropertyName ++ ':' :: ' ' :: status) ++
          ('\n' :: '-' :: '-' :: '-' :: '\n' :: '\n' :: content))) := by
  have hm : matchFm content = none := by simp [matchFm, h]
  refine ⟨hm, ?_⟩
  simp [updateNoteStatus, hread, updateContent, hm, stringifyFm, lineOf, fmOpen, dashes3]

/-- Claim C9 witness: a single blank line before the delimiter defeats the
match; the existing block is left inside the body and a new one is
prepended. -/
theorem c9_witness :
    matchFm ("\n---\nstatus: Old\n---\nBody".toList) = none ∧
    (updateNoteStatus DEFAULT_SETTINGS
      (fun _ => some ("\n---\nstatus: Old\n---\nBody".toList))
      ("note".toList) ("Doing".toList)).write =
      some (('-' :: '-' :: '-' :: '\n' :: []) ++
        ((DEFAULT_SETTINGS.statusPropertyName ++ ':' :: ' ' :: "Doing".toList) ++
          ('\n' :: '-' :: '-' :: '-' :: '\n' :: '\n' :: "\n---\nstatus: Old\n---\nBody".toList))) := by
  exact c9_anchored_at_start DEFAULT_SETTINGS
    (fun _ => some ("\n---\nstatus: Old\n---\nBody".toList))
    ("note".toList) ("Doing".toList) ("\n---\nstatus: Old\n---\nBody".toList)
    rfl (by decide)

/-- Claim C10: handleMutations examines at most the first 10 mutation
records: its outcome on any batch equals its outcome on the first 10
records, so appending further records to a batch already holding 10
changes nothing, and a card movement represented only in later records
triggers no processing. -/
theorem c10_first_ten_records (boardActive : Bool) (muts extra : List MRecord)
    (hlen : 10 ≤ muts.length) :
    (∀ ms : List MRecord,
      handleMutations boardActive ms = handleMutations boardActive (ms.take 10)) ∧
    handleMutations boardActive (muts ++ extra) = handleMutations boardActive muts := by
  have key : ∀ ms : List MRecord,
      handleMutations boardActive ms = handleMutations boardActive (ms.take 10) := by
    intro ms
    have h1 : mutationsToProcess (ms.take 10) = ms.take 10 := by
      rw [mutationsToProcess_take]
      refine take_all_of_le _ _ ?_
      rw [List.length_take]
      omega
    simp [handleMutations, mutationsToProcess_take ms, h1]
  refine ⟨key, ?_⟩
  rw [key (muts ++ extra), key muts, take_app_of_le muts extra 10 hlen]

/-- Claim C10 witness: a record added past the tenth, carrying a Kanban
item, changes nothing about the processed elements. -/
theorem c10_witness :
    10 ≤ (List.replicate 10 (MRecord.mk MutType.childList [DomNode.htmlElem 1])).length ∧
    handleMutations true
        (List.replicate 10 (MRecord.mk MutType.childList [DomNode.htmlElem 1]) ++
          [MRecord.mk MutType.childList [DomNode.htmlElem 2]])
      = handleMutations true
          (List.replicate 10 (MRecord.mk MutType.childList [DomNode.htmlElem 1])) := by
  refine ⟨by decide, ?_⟩
  exact (c10_first_ten_records true
    (List.replicate 10 (MRecord.mk MutType.childList [DomNode.htmlElem 1]))
    [MRecord.mk MutType.childList [DomNode.htmlElem 2]] (by decide)).2
